import Mathlib

/-!
# Shallow embedding of the tezosprotocol wire-format codec

This file embeds the Go sources of the `tezosprotocol` library (zarith
variable-length integers, the Base58Check registry and codec, the operation
content codecs and the operation/signed-operation envelopes) as executable
Lean definitions, and proves or refutes the specification claims about them.

Modelling conventions:
* Go `[]byte` is `List Nat`, each element a byte value;
  machine-integer casts are written with explicit `% 2 ^ w` arithmetic.
* Go `(T, error)` returns are `Except Err T`.  Runtime index/slice panics
  that the Go sources recover via `catchOutOfRangeExceptions` are modelled
  as explicit bounds checks returning `Err.outOfBounds` at exactly the
  program points where the Go code would panic with an "out of range" fault.
* The external base58 alphabet codec (btcsuite) and SHA-256 (Go stdlib) are
  not part of this repository; they enter as the parameter record
  `CodecEnv`, and theorems assume only the round-trip/shape facts the code
  relies on, discharged on a concrete instance in the witnesses.
* Bit-string manipulations in the Go zarith codec (7-bit segments with a
  continuation bit) are expressed arithmetically: trimming the continuation
  bit of a byte `b` is `b % 128`, testing it is `b / 128 % 2`, and
  concatenating 7-bit segments is a base-128 positional sum.
-/

namespace TezosProtocol

/-- Error classification for the embedded code.  `outOfBounds` corresponds to
Go index/slice panics recovered by `catchOutOfRangeExceptions`; the remaining
constructors correspond to explicitly returned `xerrors` values. -/
inductive Err where
  /-- a recovered "out of range" runtime fault -/
  | outOfBounds
  /-- zarith: "exhausted input while searching for end of next zarith number" -/
  | unterminatedZarith
  /-- zarith: "expected non-empty byte array" -/
  | emptyZarith
  /-- zarith: "cannot encode negative integer" -/
  | negativeZarith
  /-- operation decode: "unexpected content tag %d" -/
  | unexpectedContentTag (t : Nat)
  /-- any other explicitly returned error, identified by its message -/
  | other (s : String)
deriving DecidableEq, Repr

instance {α : Type} [DecidableEq α] : DecidableEq (Except Err α) := fun a b =>
  match a, b with
  | .ok x, .ok y => if h : x = y then .isTrue (by rw [h]) else .isFalse (by simp [h])
  | .error e, .error f => if h : e = f then .isTrue (by rw [h]) else .isFalse (by simp [h])
  | .ok _, .error _ => .isFalse (by simp)
  | .error _, .ok _ => .isFalse (by simp)

namespace Zarith

/-- Fuel-driven worker for the unsigned zarith encoder.  The Go encoder
converts `n` to binary, pads to a multiple of 7 bits, splits into 7-bit
segments, reverses them (least-significant segment first on the wire) and
sets the continuation bit on every byte but the last; that is exactly the
base-128 digit expansion below.  Fuel `n + 1` always suffices because the
argument strictly decreases. -/
def EncodeNatAux : Nat → Nat → List Nat
  | 0, _ => []
  | fuel + 1, n => if n < 128 then [n] else (n % 128 + 128) :: EncodeNatAux fuel (n / 128)

/-- Unsigned zarith encoding of a natural number (`Encode` on a non-negative
`big.Int`).  `EncodeNat 0 = [0]`. -/
def EncodeNat (n : Nat) : List Nat := EncodeNatAux (n + 1) n

/-- `zarith.Encode`: errors on negative input, otherwise the base-128
continuation-bit encoding. -/
def Encode (value : Int) : Except Err (List Nat) :=
  if value < 0 then .error .negativeZarith else .ok (EncodeNat value.toNat)

/-- The value of a little-endian list of 7-bit segments: the Go decoder trims
the continuation bit of every byte (`b % 128`), reverses the segments and
reads the concatenation as a binary numeral. -/
def segmentsValue (source : List Nat) : Nat :=
  source.foldr (fun b acc => acc * 128 + b % 128) 0

/-- `zarith.Decode`: decodes an unsigned zarith integer from the entire
input.  Errors only on empty input (the Go bit-string parse of a non-empty
0/1 string cannot fail). -/
def Decode (source : List Nat) : Except Err Nat :=
  if source = [] then .error .emptyZarith else .ok (segmentsValue source)

/-- A byte terminates a zarith number iff its high (continuation) bit is
clear: `b & 128 == 0`, arithmetically `b / 128 % 2 = 0`. -/
def isTerminalByte (b : Nat) : Bool := b / 128 % 2 == 0

/-- Index of the first terminating byte, mirroring the scan loop in
`zarith.ReadNext`. -/
def firstTerminalIdx : List Nat → Option Nat
  | [] => none
  | b :: rest =>
    if isTerminalByte b then some 0 else (firstTerminalIdx rest).map (· + 1)

/-- `zarith.ReadNext`: scans for the first byte with a clear continuation
bit, decodes exactly that prefix and reports the byte count consumed. -/
def ReadNext (byteStream : List Nat) : Except Err (Nat × Nat) :=
  match firstTerminalIdx byteStream with
  | some n => (Decode (byteStream.take (n + 1))).map (fun v => (v, n + 1))
  | none => .error .unterminatedZarith

/-- Fuel-driven binary digit count: the length of `big.Int.Text(2)`
(`bitLen 0 = 1`, for the one-character string "0").  Fuel `n + 1` always
suffices because the argument strictly decreases. -/
def bitLenAux : Nat → Nat → Nat
  | 0, _ => 0
  | fuel + 1, n => if n ≤ 1 then 1 else bitLenAux fuel (n / 2) + 1

/-- `len(value.Text(2))`: the number of binary digits of `n`. -/
def bitLen (n : Nat) : Nat := bitLenAux (n + 1) n

/-- Exactly `k` little-endian 7-bit segments of `n`, the continuation bit
set on every segment but the last.  The Go signed encoder slices its padded
bit string into a fixed number of 7-bit segments, so when the padding is a
full 7 bits the final (most-significant) segment is an all-zero byte. -/
def EncodeNatDigits : Nat → Nat → List Nat
  | 0, _ => []
  | 1, n => [n % 128]
  | k + 2, n => (n % 128 + 128) :: EncodeNatDigits (k + 1) (n / 128)

/-- `zarith.EncodeSigned`: the first emitted byte carries the sign in bit 6
and the low 6 bits of the magnitude.  The remaining magnitude bits are
padded with `7 - (numBitsAfterFirstSegment % 7)` leading zeros — which is
`7`, not `0`, when that bit count is already a positive multiple of 7, so a
redundant all-zero final segment is emitted in that case (for example
`EncodeSigned 1000000 = [0x80, 0x89, 0xfa, 0x00]`) — and split into 7-bit
segments, least significant first.  `EncodeSigned` never errors in the Go
source, so it returns a plain byte list. -/
def EncodeSigned (value : Int) : List Nat :=
  if value = 0 then [0]
  else
    let signBit : Nat := if value < 0 then 1 else 0
    let a := value.natAbs
    let numValueBits := bitLen a
    if numValueBits ≤ 6 then [signBit * 64 + a]
    else
      let numBitsAfterFirstSegment := numValueBits - 6
      let numPaddingBitsRequired := 7 - numBitsAfterFirstSegment % 7
      (128 + signBit * 64 + a % 64)
        :: EncodeNatDigits
          ((numBitsAfterFirstSegment + numPaddingBitsRequired) / 7) (a / 64)

/-- `zarith.DecodeSigned`: bit 6 of the first byte is the sign, its low
6 bits are the least-significant magnitude bits, and the remaining bytes
contribute 7 bits each. -/
def DecodeSigned (source : List Nat) : Except Err Int :=
  match source with
  | [] => .error .emptyZarith
  | b0 :: rest =>
    let mag : Nat := segmentsValue rest * 64 + b0 % 64
    .ok (if b0 / 64 % 2 = 1 then -(mag : Int) else (mag : Int))

theorem EncodeNatAux_irrel (f1 f2 n : Nat) (h1 : n < f1) (h2 : n < f2) :
    EncodeNatAux f1 n = EncodeNatAux f2 n := by
  induction f1 generalizing f2 n with
  | zero => omega
  | succ f ih =>
    cases f2 with
    | zero => omega
    | succ g =>
      by_cases h128 : n < 128
      · simp [EncodeNatAux, h128]
      · simp only [EncodeNatAux, h128, if_false]
        have hd : n / 128 < n := Nat.div_lt_self (by omega) (by norm_num)
        rw [ih g (n / 128) (by omega) (by omega)]

theorem EncodeNat_unfold (n : Nat) :
    EncodeNat n = if n < 128 then [n] else (n % 128 + 128) :: EncodeNat (n / 128) := by
  have h0 : EncodeNat n =
      if n < 128 then [n] else (n % 128 + 128) :: EncodeNatAux n (n / 128) := rfl
  rw [h0]
  by_cases h : n < 128
  · simp [h]
  · simp only [h, if_false]
    have hd : n / 128 < n := Nat.div_lt_self (by omega) (by norm_num)
    congr 1
    exact EncodeNatAux_irrel n (n / 128 + 1) (n / 128) (by omega) (by omega)

theorem EncodeNat_ne_nil (n : Nat) : EncodeNat n ≠ [] := by
  rw [EncodeNat_unfold]
  by_cases h : n < 128 <;> simp [h]

/-- Decoding the segments of an unsigned encoding recovers the value. -/
theorem segmentsValue_EncodeNat (n : Nat) : segmentsValue (EncodeNat n) = n := by
  induction n using Nat.strong_induction_on with
  | _ n ih =>
    rw [EncodeNat_unfold]
    by_cases h : n < 128
    · simp only [h, if_true, segmentsValue, List.foldr_cons, List.foldr_nil]
      omega
    · have hd : n / 128 < n := Nat.div_lt_self (by omega) (by norm_num)
      simp only [h, if_false, segmentsValue, List.foldr_cons]
      have := ih (n / 128) hd
      simp only [segmentsValue] at this
      rw [this]
      omega

theorem Decode_EncodeNat (n : Nat) : Decode (EncodeNat n) = .ok n := by
  rw [Decode, if_neg (EncodeNat_ne_nil n), segmentsValue_EncodeNat]

/-- Every byte of an unsigned encoding except the last has its continuation
bit set, and the last has it clear: the first terminating byte of
`EncodeNat n ++ extra` sits at the end of `EncodeNat n`. -/
theorem firstTerminalIdx_EncodeNat (n : Nat) (extra : List Nat) :
    firstTerminalIdx (EncodeNat n ++ extra) = some ((EncodeNat n).length - 1) := by
  induction n using Nat.strong_induction_on with
  | _ n ih =>
    rw [EncodeNat_unfold]
    by_cases h : n < 128
    · have hterm : isTerminalByte n = true := by
        simp only [isTerminalByte, beq_iff_eq]
        omega
      simp [h, firstTerminalIdx, hterm]
    · have hd : n / 128 < n := Nat.div_lt_self (by omega) (by norm_num)
      have hcont : isTerminalByte (n % 128 + 128) = false := by
        simp only [isTerminalByte]
        rw [beq_eq_false_iff_ne]
        omega
      have hlen : 1 ≤ (EncodeNat (n / 128)).length :=
        List.length_pos_of_ne_nil (EncodeNat_ne_nil (n / 128))
      simp only [h, if_false, List.cons_append, firstTerminalIdx, hcont, Bool.false_eq_true,
        if_false, ih (n / 128) hd, Option.map_some', List.length_cons, Option.some.injEq]
      omega

/-- Reading the next zarith number from an unsigned encoding followed by
arbitrary extra bytes yields the encoded value and the encoding's length. -/
theorem ReadNext_EncodeNat (n : Nat) (extra : List Nat) :
    ReadNext (EncodeNat n ++ extra) = .ok (n, (EncodeNat n).length) := by
  have hlen : 1 ≤ (EncodeNat n).length :=
    List.length_pos_of_ne_nil (EncodeNat_ne_nil n)
  have htake : (EncodeNat n).length - 1 + 1 = (EncodeNat n).length := by omega
  unfold ReadNext
  rw [firstTerminalIdx_EncodeNat]
  show (Decode ((EncodeNat n ++ extra).take ((EncodeNat n).length - 1 + 1))).map
      (fun v => (v, (EncodeNat n).length - 1 + 1)) = _
  rw [htake, List.take_left, Decode_EncodeNat]
  rfl

theorem firstTerminalIdx_eq_none_iff (s : List Nat) :
    firstTerminalIdx s = none ↔ ∀ b ∈ s, b / 128 % 2 = 1 := by
  induction s with
  | nil => simp [firstTerminalIdx]
  | cons b rest ih =>
    by_cases hb : isTerminalByte b
    · have hb' : b / 128 % 2 = 0 := by
        simpa only [isTerminalByte, beq_iff_eq] using hb
      simp only [firstTerminalIdx, hb, if_true]
      constructor
      · intro h
        exact absurd h (by simp)
      · intro h
        exact absurd (h b (List.mem_cons_self b rest)) (by omega)
    · have hbf : isTerminalByte b = false := by
        simpa using hb
      have hb' : b / 128 % 2 = 1 := by
        have hne : ¬ b / 128 % 2 = 0 := by
          simpa only [isTerminalByte, beq_iff_eq] using hb
        omega
      simp only [firstTerminalIdx, hbf, Bool.false_eq_true, if_false,
        Option.map_eq_none', ih, List.mem_cons]
      constructor
      · intro h c hc
        rcases hc with rfl | hc
        · exact hb'
        · exact h c hc
      · intro h c hc
        exact h c (Or.inr hc)

theorem bitLenAux_irrel (f1 f2 n : Nat) (h1 : n < f1) (h2 : n < f2) :
    bitLenAux f1 n = bitLenAux f2 n := by
  induction f1 generalizing f2 n with
  | zero => omega
  | succ f ih =>
    cases f2 with
    | zero => omega
    | succ g =>
      by_cases hle : n ≤ 1
      · simp [bitLenAux, hle]
      · simp only [bitLenAux, hle, if_false]
        have hd : n / 2 < n := Nat.div_lt_self (by omega) (by norm_num)
        rw [ih g (n / 2) (by omega) (by omega)]

theorem bitLen_unfold (n : Nat) :
    bitLen n = if n ≤ 1 then 1 else bitLen (n / 2) + 1 := by
  have h0 : bitLen n = if n ≤ 1 then 1 else bitLenAux n (n / 2) + 1 := rfl
  rw [h0]
  by_cases h : n ≤ 1
  · simp [h]
  · simp only [h, if_false]
    have hd : n / 2 < n := Nat.div_lt_self (by omega) (by norm_num)
    congr 1
    exact bitLenAux_irrel n (n / 2 + 1) (n / 2) (by omega) (by omega)

/-- A number is smaller than two to its binary digit count. -/
theorem lt_two_pow_bitLen (n : Nat) : n < 2 ^ bitLen n := by
  induction n using Nat.strong_induction_on with
  | _ n ih =>
    rw [bitLen_unfold]
    by_cases h : n ≤ 1
    · simp only [h, if_true, pow_one]
      omega
    · have hd : n / 2 < n := Nat.div_lt_self (by omega) (by norm_num)
      simp only [h, if_false, pow_succ]
      have := ih (n / 2) hd
      omega

/-- Decoding the segments of a fixed-width digit expansion recovers the
value, for every sufficient digit count. -/
theorem segmentsValue_EncodeNatDigits (k n : Nat) (h : n < 128 ^ k) :
    segmentsValue (EncodeNatDigits k n) = n := by
  induction k generalizing n with
  | zero =>
    simp only [pow_zero] at h
    have hn : n = 0 := by omega
    subst hn
    rfl
  | succ j ih =>
    cases j with
    | zero =>
      have h128 : n < 128 := by simpa using h
      simp only [EncodeNatDigits, segmentsValue, List.foldr_cons, List.foldr_nil]
      omega
    | succ i =>
      simp only [EncodeNatDigits, segmentsValue, List.foldr_cons]
      have hrec := ih (n / 128) (by rw [pow_succ] at h; omega)
      simp only [segmentsValue] at hrec
      rw [hrec]
      omega

/-- Signed round trip: decoding a signed encoding recovers the value,
including negative values and the redundant-zero-segment padding cases. -/
theorem DecodeSigned_EncodeSigned (v : Int) :
    DecodeSigned (EncodeSigned v) = .ok v := by
  by_cases h0 : v = 0
  · simp [h0, EncodeSigned, DecodeSigned, segmentsValue]
  · unfold EncodeSigned DecodeSigned
    simp only [h0, if_false]
    by_cases hsmall : bitLen v.natAbs ≤ 6
    · have ha64 : v.natAbs < 64 := by
        have h1 := lt_two_pow_bitLen v.natAbs
        have h2 : (2 : Nat) ^ bitLen v.natAbs ≤ 2 ^ 6 :=
          Nat.pow_le_pow_right (by norm_num) hsmall
        norm_num at h2
        omega
      by_cases hneg : v < 0 <;>
        simp only [hneg, hsmall, if_true, if_false, segmentsValue,
          List.foldr_nil, Except.ok.injEq]
      · have h1 : (1 * 64 + v.natAbs) % 64 = v.natAbs := by omega
        have h2 : (1 * 64 + v.natAbs) / 64 % 2 = 1 := by omega
        rw [h1, h2]
        simp only [if_true]
        omega
      · have h1 : (0 * 64 + v.natAbs) % 64 = v.natAbs := by omega
        have h2 : (0 * 64 + v.natAbs) / 64 % 2 = 0 := by omega
        rw [h1, h2]
        simp only [zero_ne_one, if_false]
        omega
    · have hbound : v.natAbs / 64 < 128
          ^ ((bitLen v.natAbs - 6 + (7 - (bitLen v.natAbs - 6) % 7)) / 7) := by
        have h1 := lt_two_pow_bitLen v.natAbs
        have hsplit : bitLen v.natAbs = bitLen v.natAbs - 6 + 6 := by omega
        rw [hsplit, pow_add] at h1
        norm_num at h1
        have hle : bitLen v.natAbs - 6
            ≤ 7 * ((bitLen v.natAbs - 6 + (7 - (bitLen v.natAbs - 6) % 7)) / 7) := by
          omega
        have hpow : (2 : Nat) ^ (bitLen v.natAbs - 6)
            ≤ 2 ^ (7 * ((bitLen v.natAbs - 6 + (7 - (bitLen v.natAbs - 6) % 7)) / 7)) :=
          Nat.pow_le_pow_right (by norm_num) hle
        have h128 : (128 : Nat)
            ^ ((bitLen v.natAbs - 6 + (7 - (bitLen v.natAbs - 6) % 7)) / 7)
            = 2 ^ (7 * ((bitLen v.natAbs - 6 + (7 - (bitLen v.natAbs - 6) % 7)) / 7)) := by
          rw [show (128 : Nat) = 2 ^ 7 by norm_num, ← pow_mul]
        rw [h128]
        omega
      have hseg := segmentsValue_EncodeNatDigits _ _ hbound
      by_cases hneg : v < 0 <;>
        simp only [hneg, hsmall, if_true, if_false, Except.ok.injEq]
      · have h1 : (128 + 1 * 64 + v.natAbs % 64) % 64 = v.natAbs % 64 := by omega
        have h2 : (128 + 1 * 64 + v.natAbs % 64) / 64 % 2 = 1 := by omega
        rw [h1, h2, hseg]
        simp only [if_true]
        have hmag : v.natAbs / 64 * 64 + v.natAbs % 64 = v.natAbs := by omega
        rw [hmag]
        omega
      · have h1 : (128 + 0 * 64 + v.natAbs % 64) % 64 = v.natAbs % 64 := by omega
        have h2 : (128 + 0 * 64 + v.natAbs % 64) / 64 % 2 = 0 := by omega
        rw [h1, h2, hseg]
        simp only [zero_ne_one, if_false]
        have hmag : v.natAbs / 64 * 64 + v.natAbs % 64 = v.natAbs := by omega
        rw [hmag]
        omega

/-- The Go padding quirk, concretely: when the magnitude's bit count past
the first 6-bit segment is a positive multiple of 7, a redundant trailing
all-zero byte is emitted (matching the staged source's
`EncodeSigned(1000000) = 80 89 fa 00` and `EncodeSigned(4096) = 80 c0 00`). -/
theorem EncodeSigned_padding_quirk :
    EncodeSigned 1000000 = [0x80, 0x89, 0xfa, 0x00]
      ∧ EncodeSigned 4096 = [0x80, 0xc0, 0x00]
      ∧ EncodeSigned (-1000000) = [0xc0, 0x89, 0xfa, 0x00] := by
  decide

end Zarith
/-! ## Base58Check registry and codec -/

/-- External dependencies of the Base58Check codec: the btcsuite base58
alphabet codec and SHA-256.  They are not code of this repository, so they
are parameters; theorems assume only the facts the repository's code relies
on (alphabet round trip on byte lists, 32-byte SHA-256 output length). -/
structure CodecEnv where
  b58Encode : List Nat → String
  b58Decode : String → List Nat
  sha256 : List Nat → List Nat

/-- An entry of the Base58Check registry (`base58CheckPrefixInfo`). -/
structure Base58CheckPrefixInfo where
  id : Nat
  payloadLength : Nat
  prefixBytes : List Nat
deriving DecidableEq, Repr

/-- `registerBase58CheckPrefix`: appends an entry, assigning as its id the
current size of the registry (the Go code panics on a zero payload length;
all registered entries below have positive lengths). -/
def registerBase58CheckPrefix (infos : List Base58CheckPrefixInfo)
    (payloadLength : Nat) (prefixBytes : List Nat) : List Base58CheckPrefixInfo :=
  infos ++ [⟨infos.length, payloadLength, prefixBytes⟩]

/-- The raw `(payload length, prefix bytes)` pairs in the order the Go
package-level initializers run. -/
def base58CheckPrefixTable : List (Nat × List Nat) :=
  [ (32, [1, 52]),                -- PrefixBlockHash
    (32, [5, 116]),               -- PrefixOperationHash
    (32, [133, 233]),             -- PrefixOperationListHash
    (32, [29, 159, 109]),         -- PrefixOperationListListHash
    (32, [2, 170]),               -- PrefixProtocolHash
    (32, [79, 199]),              -- PrefixContextHash
    (20, [6, 161, 159]),          -- PrefixEd25519PublicKeyHash
    (20, [6, 161, 161]),          -- PrefixSecp256k1PublicKeyHash
    (20, [6, 161, 164]),          -- PrefixP256PublicKeyHash
    (16, [153, 103]),             -- PrefixCryptoboxPublicKeyHash
    (32, [13, 15, 58, 7]),        -- PrefixEd25519Seed
    (32, [13, 15, 37, 217]),      -- PrefixEd25519PublicKey
    (32, [17, 162, 224, 201]),    -- PrefixSecp256k1SecretKey
    (32, [16, 81, 238, 189]),     -- PrefixP256SecretKey
    (56, [7, 90, 60, 179, 41]),   -- PrefixEd25519EncryptedSeed
    (56, [9, 237, 241, 174, 150]), -- PrefixSecp256k1EncryptedSecretKey
    (56, [9, 48, 57, 115, 171]),  -- PrefixP256EncryptedSecretKey
    (33, [3, 254, 226, 86]),      -- PrefixSecp256k1PublicKey
    (33, [3, 178, 139, 127]),     -- PrefixP256PublicKey
    (33, [38, 248, 136]),         -- PrefixSecp256k1Scalar
    (33, [5, 92, 0]),             -- PrefixSecp256k1Element
    (64, [43, 246, 78, 7]),       -- PrefixEd25519SecretKey
    (64, [9, 245, 205, 134, 18]), -- PrefixEd25519Signature
    (64, [13, 115, 101, 19, 63]), -- PrefixSecp256k1Signature
    (64, [54, 240, 44, 52]),      -- PrefixP256Signature
    (64, [4, 130, 43]),           -- PrefixGenericSignature
    (4, [87, 82, 0]),             -- PrefixChainID
    (20, [2, 90, 121]) ]          -- PrefixContractHash

/-- `base58CheckPrefixInfos`: the registry built by running every
registration in order. -/
def base58CheckPrefixInfos : List Base58CheckPrefixInfo :=
  base58CheckPrefixTable.foldl
    (fun acc p => registerBase58CheckPrefix acc p.1 p.2) []

/-- A `Base58CheckPrefix` value is the registry ordinal assigned at
registration time. -/
def PrefixBlockHash : Nat := 0
def PrefixOperationHash : Nat := 1
def PrefixOperationListHash : Nat := 2
def PrefixOperationListListHash : Nat := 3
def PrefixProtocolHash : Nat := 4
def PrefixContextHash : Nat := 5
def PrefixEd25519PublicKeyHash : Nat := 6
def PrefixSecp256k1PublicKeyHash : Nat := 7
def PrefixP256PublicKeyHash : Nat := 8
def PrefixCryptoboxPublicKeyHash : Nat := 9
def PrefixEd25519Seed : Nat := 10
def PrefixEd25519PublicKey : Nat := 11
def PrefixSecp256k1SecretKey : Nat := 12
def PrefixP256SecretKey : Nat := 13
def PrefixEd25519EncryptedSeed : Nat := 14
def PrefixSecp256k1EncryptedSecretKey : Nat := 15
def PrefixP256EncryptedSecretKey : Nat := 16
def PrefixSecp256k1PublicKey : Nat := 17
def PrefixP256PublicKey : Nat := 18
def PrefixSecp256k1Scalar : Nat := 19
def PrefixSecp256k1Element : Nat := 20
def PrefixEd25519SecretKey : Nat := 21
def PrefixEd25519Signature : Nat := 22
def PrefixSecp256k1Signature : Nat := 23
def PrefixP256Signature : Nat := 24
def PrefixGenericSignature : Nat := 25
def PrefixChainID : Nat := 26
def PrefixContractHash : Nat := 27

/-- `AllBase58CheckPrefixes`: every registered prefix, in registration
order. -/
def AllBase58CheckPrefixes : List Nat := base58CheckPrefixInfos.map (·.id)

/-- Registry lookup (`base58CheckPrefixInfos[b]`); a missing key yields the
Go zero value `{0, 0, nil}`. -/
def prefixInfoOf (p : Nat) : Base58CheckPrefixInfo :=
  (base58CheckPrefixInfos.find? (fun i => i.id == p)).getD ⟨0, 0, []⟩

/-- `Base58CheckPrefix.PayloadLength`. -/
def PayloadLength (p : Nat) : Nat := (prefixInfoOf p).payloadLength

/-- `Base58CheckPrefix.PrefixBytes`. -/
def PrefixBytes (p : Nat) : List Nat := (prefixInfoOf p).prefixBytes

/-- `checksum`: first 4 bytes of a double SHA-256. -/
def checksum (E : CodecEnv) (input : List Nat) : List Nat :=
  (E.sha256 (E.sha256 input)).take 4

/-- `Base58CheckEncode`: length-checks the payload, then base58-encodes
`prefix bytes || payload || checksum`. -/
def Base58CheckEncode (E : CodecEnv) (pfx : Nat) (input : List Nat) :
    Except Err String :=
  if input.length ≠ PayloadLength pfx then
    .error (.other "unexpected length when encoding base58 input")
  else
    let payload := PrefixBytes pfx ++ input
    .ok (E.b58Encode (payload ++ checksum E payload))

/-- Checksum verification, prefix scan and payload length check of
`Base58CheckDecode`, operating on the base58-decoded bytes.  The Go code
re-slices `decoded` in place; here `decoded.take (decoded.length - 4)` is
that re-sliced value. -/
def base58CheckDecodeBytes (E : CodecEnv) (decoded : List Nat) :
    Except Err (Nat × List Nat) :=
  if decoded.length < 5 then .error (.other "not valid base58check")
  else if checksum E (decoded.take (decoded.length - 4))
      ≠ decoded.drop (decoded.length - 4) then
    .error (.other "b58check checksum failed")
  else
    match AllBase58CheckPrefixes.find?
        (fun q => (PrefixBytes q).isPrefixOf (decoded.take (decoded.length - 4))) with
    | none => .error (.other "unknown base58check prefix")
    | some q =>
      if ((decoded.take (decoded.length - 4)).drop (PrefixBytes q).length).length
          ≠ PayloadLength q then
        .error (.other "unexpected length when decoding base58 input")
      else .ok (q, (decoded.take (decoded.length - 4)).drop (PrefixBytes q).length)

/-- `Base58CheckDecode`: base58-decodes, verifies the 4-byte checksum, finds
the first registered prefix whose bytes lead the data, and length-checks the
remaining payload. -/
def Base58CheckDecode (E : CodecEnv) (input : String) :
    Except Err (Nat × List Nat) :=
  base58CheckDecodeBytes E (E.b58Decode input)

/-- `find?` returns the designated element when it is the only satisfying
one. -/
theorem find?_eq_some_of_unique {α : Type} {f : α → Bool} {l : List α} {a : α}
    (hmem : a ∈ l) (ha : f a = true) (hothers : ∀ b ∈ l, b ≠ a → f b = false) :
    l.find? f = some a := by
  induction l with
  | nil => cases hmem
  | cons x xs ih =>
    by_cases hxa : x = a
    · subst hxa
      exact List.find?_cons_of_pos xs ha
    · have hfx : f x = false := hothers x (List.mem_cons_self x xs) hxa
      rw [List.find?_cons_of_neg xs (by simp [hfx])]
      have hmem' : a ∈ xs := by
        rcases List.mem_cons.mp hmem with rfl | h
        · exact absurd rfl hxa
        · exact h
      exact ih hmem' (fun b hb hba => hothers b (List.mem_cons_of_mem x hb) hba)

/-- No registered prefix's bytes are a byte-prefix of another registered
prefix's bytes (checked over the whole 28×28 table). -/
theorem registry_pairwise_not_prefix :
    ∀ q ∈ AllBase58CheckPrefixes, ∀ p ∈ AllBase58CheckPrefixes, q ≠ p →
      (PrefixBytes q).isPrefixOf (PrefixBytes p) = false := by decide

theorem registry_prefixBytes_nonempty :
    ∀ p ∈ AllBase58CheckPrefixes, 1 ≤ (PrefixBytes p).length := by decide

/-- Because the registry is prefix-free, the decoder's first-match scan over
`prefix bytes ++ payload` finds exactly the prefix used by the encoder, for
every payload. -/
theorem registry_find?_scan (p : Nat) (hp : p ∈ AllBase58CheckPrefixes)
    (payload : List Nat) :
    AllBase58CheckPrefixes.find?
      (fun q => (PrefixBytes q).isPrefixOf (PrefixBytes p ++ payload)) = some p := by
  apply find?_eq_some_of_unique hp
  · rw [List.isPrefixOf_iff_prefix]
    exact List.prefix_append _ _
  · intro q hq hne
    rw [Bool.eq_false_iff]
    intro hq'
    rw [List.isPrefixOf_iff_prefix] at hq'
    rcases List.prefix_or_prefix_of_prefix hq' (List.prefix_append _ _) with h | h
    · have hfalse := registry_pairwise_not_prefix q hq p hp hne
      rw [← List.isPrefixOf_iff_prefix] at h
      rw [h] at hfalse
      cases hfalse
    · have hfalse := registry_pairwise_not_prefix p hp q hq (Ne.symm hne)
      rw [← List.isPrefixOf_iff_prefix] at h
      rw [h] at hfalse
      cases hfalse

/-- The canonical Base58Check string of a prefix and payload: base58 of
`prefix bytes || payload || checksum`. -/
def base58CheckString (E : CodecEnv) (pfx : Nat) (payload : List Nat) : String :=
  E.b58Encode (PrefixBytes pfx ++ payload ++ checksum E (PrefixBytes pfx ++ payload))

/-- Base58Check round trip, assuming only that the external base58 alphabet
codec round-trips on this particular byte string and that the checksum is
4 bytes (SHA-256 output is 32 bytes). -/
theorem Base58Check_roundtrip (E : CodecEnv) (pfx : Nat)
    (hp : pfx ∈ AllBase58CheckPrefixes)
    (payload : List Nat) (hlen : payload.length = PayloadLength pfx)
    (hsha : (checksum E (PrefixBytes pfx ++ payload)).length = 4)
    (hrt : E.b58Decode (base58CheckString E pfx payload)
           = PrefixBytes pfx ++ payload ++ checksum E (PrefixBytes pfx ++ payload)) :
    Base58CheckEncode E pfx payload = .ok (base58CheckString E pfx payload)
    ∧ Base58CheckDecode E (base58CheckString E pfx payload) = .ok (pfx, payload) := by
  have hpb := registry_prefixBytes_nonempty pfx hp
  have hlentot : (PrefixBytes pfx ++ payload ++ checksum E (PrefixBytes pfx ++ payload)).length
      = (PrefixBytes pfx ++ payload).length + 4 := by
    rw [List.length_append, hsha]
  have hsub : (PrefixBytes pfx ++ payload).length + 4 - 4
      = (PrefixBytes pfx ++ payload).length := by omega
  have hbody : (PrefixBytes pfx ++ payload ++ checksum E (PrefixBytes pfx ++ payload)).take
      ((PrefixBytes pfx ++ payload ++ checksum E (PrefixBytes pfx ++ payload)).length - 4)
      = PrefixBytes pfx ++ payload := by
    rw [hlentot, hsub, List.take_left]
  have hcks : (PrefixBytes pfx ++ payload ++ checksum E (PrefixBytes pfx ++ payload)).drop
      ((PrefixBytes pfx ++ payload ++ checksum E (PrefixBytes pfx ++ payload)).length - 4)
      = checksum E (PrefixBytes pfx ++ payload) := by
    rw [hlentot, hsub, List.drop_left]
  have hge : 1 ≤ (PrefixBytes pfx ++ payload).length := by
    rw [List.length_append]
    omega
  constructor
  · unfold Base58CheckEncode base58CheckString
    rw [if_neg (by simp [hlen])]
  · unfold Base58CheckDecode
    rw [hrt]
    unfold base58CheckDecodeBytes
    rw [hbody, hcks, hlentot]
    rw [if_neg (by omega)]
    rw [if_neg (by simp)]
    simp only [registry_find?_scan pfx hp payload]
    rw [List.drop_left]
    rw [if_neg (by simp [hlen])]

/-! ## Field lengths, tags and small helpers -/

def PubKeyHashLen : Nat := 20
def TaggedPubKeyHashLen : Nat := PubKeyHashLen + 1
def PubKeyLenEd25519 : Nat := 32
def PubKeyLenSecp256k1 : Nat := 33
def PubKeyLenP256 : Nat := 33
def ContractHashLen : Nat := 20
def ContractIDLen : Nat := 22
def BlockHashLen : Nat := 32
def OperationHashLen : Nat := 32
def OperationSignatureLen : Nat := 64

def ContentsTagRevelation : Nat := 107
def ContentsTagTransaction : Nat := 108
def ContentsTagOrigination : Nat := 109
def ContentsTagDelegation : Nat := 110
def ContentsTagEndorsement : Nat := 0

def ContractIDTagImplicit : Nat := 0
def ContractIDTagOriginated : Nat := 1
def PubKeyHashTagEd25519 : Nat := 0
def PubKeyHashTagSecp256k1 : Nat := 1
def PubKeyHashTagP256 : Nat := 2

def maxUint30 : Nat := 1 <<< 30 - 1

/-- `serializeBoolean`. -/
def serializeBoolean (b : Bool) : Nat := if b then 255 else 0

/-- `deserializeBoolean`. -/
def deserializeBoolean (b : Nat) : Except Err Bool :=
  if b = 0 then .ok false
  else if b = 255 then .ok true
  else .error (.other "byte value not a valid boolean encoding")

/-- Big-endian bytes of `uint32(n)` as written by `binary.Write`; the cast
truncates, and each byte expression below already reduces modulo 2^32. -/
def uint32BE (n : Nat) : List Nat :=
  [n / 16777216 % 256, n / 65536 % 256, n / 256 % 256, n % 256]

/-- Big-endian `uint32` read from the first four bytes of a stream. -/
def readUint32BE (bs : List Nat) : Nat :=
  (bs.take 4).foldl (fun acc b => acc * 256 + b) 0

/-- Big-endian two's-complement bytes of an `int32` as written by
`binary.Write`. -/
def int32BE (v : Int) : List Nat := uint32BE (v % 4294967296).toNat

/-- `readInt32`: big-endian two's-complement `int32` from the first four
bytes; `binary.Read` errors when fewer than four bytes remain. -/
def readInt32 (data : List Nat) : Except Err Int :=
  if data.length < 4 then .error (.other "failed to read int32")
  else
    .ok (if 2 ^ 31 ≤ readUint32BE data
      then (readUint32BE data : Int) - 4294967296
      else (readUint32BE data : Int))

/-! ## BranchID, ContractID, PublicKey -/

/-- `BranchID.MarshalBinary`: base58check-decode and demand the block hash
prefix. -/
def BranchID.MarshalBinary (E : CodecEnv) (b : String) : Except Err (List Nat) :=
  match Base58CheckDecode E b with
  | .error e => .error e
  | .ok (pfx, b58decoded) =>
    if pfx ≠ PrefixBlockHash then
      .error (.other "unexpected base58check prefix for branch ID")
    else .ok b58decoded

/-- `BranchID.UnmarshalBinary`: 32 bytes, re-encoded with the block hash
prefix. -/
def BranchID.UnmarshalBinary (E : CodecEnv) (data : List Nat) : Except Err String :=
  if data.length ≠ BlockHashLen then
    .error (.other "wrong branch ID length")
  else Base58CheckEncode E PrefixBlockHash data

/-- `ContractID.MarshalBinary`: the 22-byte `$contract_id` form — implicit
accounts are tag 0, a curve tag and the 20-byte hash; originated accounts are
tag 1, the 20-byte contract hash and a padding byte. -/
def ContractID.MarshalBinary (E : CodecEnv) (c : String) : Except Err (List Nat) :=
  match Base58CheckDecode E c with
  | .error e => .error e
  | .ok (pfx, b58decoded) =>
    if pfx = PrefixEd25519PublicKeyHash ∨ pfx = PrefixSecp256k1PublicKeyHash
        ∨ pfx = PrefixP256PublicKeyHash then
      if b58decoded.length ≠ PubKeyHashLen then
        .error (.other "wrong public key hash length in contract ID")
      else if pfx = PrefixEd25519PublicKeyHash then
        .ok (ContractIDTagImplicit :: PubKeyHashTagEd25519 :: b58decoded)
      else if pfx = PrefixSecp256k1PublicKeyHash then
        .ok (ContractIDTagImplicit :: PubKeyHashTagSecp256k1 :: b58decoded)
      else
        .ok (ContractIDTagImplicit :: PubKeyHashTagP256 :: b58decoded)
    else if pfx = PrefixContractHash then
      if b58decoded.length ≠ ContractHashLen then
        .error (.other "wrong contract hash length in contract ID")
      else .ok (ContractIDTagOriginated :: b58decoded ++ [0])
    else .error (.other "unexpected base58check prefix in contract ID")

/-- Shared tail of `ContractID.UnmarshalBinary` on a 22-byte buffer (the
21-byte tagged-pubkey-hash form is first padded with the implicit tag). -/
def contractIDOfTagged (E : CodecEnv) (data : List Nat) : Except Err String :=
  match data with
  | [] => .error .outOfBounds
  | contractIDTag :: rest =>
    if contractIDTag = ContractIDTagImplicit then
      match rest with
      | [] => .error .outOfBounds
      | pkhTag :: pubKeyHash =>
        if pkhTag = PubKeyHashTagEd25519 then
          Base58CheckEncode E PrefixEd25519PublicKeyHash pubKeyHash
        else if pkhTag = PubKeyHashTagSecp256k1 then
          Base58CheckEncode E PrefixSecp256k1PublicKeyHash pubKeyHash
        else if pkhTag = PubKeyHashTagP256 then
          Base58CheckEncode E PrefixP256PublicKeyHash pubKeyHash
        else .error (.other "unexpected pub_key_hash tag")
    else if contractIDTag = ContractIDTagOriginated then
      Base58CheckEncode E PrefixContractHash (rest.take ContractHashLen)
    else .error (.other "unexpected contract ID tag")

/-- `ContractID.UnmarshalBinary`: accepts a 22-byte `$contract_id` or a
21-byte `$public_key_hash` (for which the implicit tag is synthesized). -/
def ContractID.UnmarshalBinary (E : CodecEnv) (data : List Nat) : Except Err String :=
  if data.length = ContractIDLen then contractIDOfTagged E data
  else if data.length = TaggedPubKeyHashLen then
    contractIDOfTagged E (ContractIDTagImplicit :: data)
  else .error (.other "unexpected length for contract ID")

def AccountTypeImplicit : String := "implicit"
def AccountTypeOriginated : String := "originated"

/-- `ContractID.AccountType`: derived from the textual Base58Check prefix. -/
def ContractID.AccountType (E : CodecEnv) (c : String) : Except Err String :=
  match Base58CheckDecode E c with
  | .error e => .error e
  | .ok (pfx, _) =>
    if pfx = PrefixEd25519PublicKeyHash ∨ pfx = PrefixSecp256k1PublicKeyHash
        ∨ pfx = PrefixP256PublicKeyHash then .ok AccountTypeImplicit
    else if pfx = PrefixContractHash then .ok AccountTypeOriginated
    else .error (.other "unknown contract type")

/-- `ContractID.EncodePubKeyHash`: the 21-byte tagged public key hash of an
implicit account (drops the leading implicit-tag byte of the 22-byte
marshalled form); errors for originated accounts. -/
def ContractID.EncodePubKeyHash (E : CodecEnv) (c : String) : Except Err (List Nat) :=
  match ContractID.AccountType E c with
  | .error e => .error e
  | .ok acctType =>
    if acctType ≠ AccountTypeImplicit then
      .error (.other "contract ID does not represent an implicit account")
    else
      match Base58CheckDecode E c with
      | .error e => .error e
      | .ok (pfx, _) =>
        if pfx = PrefixEd25519PublicKeyHash ∨ pfx = PrefixSecp256k1PublicKeyHash
            ∨ pfx = PrefixP256PublicKeyHash then
          (ContractID.MarshalBinary E c).map (·.drop 1)
        else .error (.other "cannot infer pubkeyhash")

/-- `PublicKey.MarshalBinary`: curve tag byte plus the raw compressed key,
with a per-curve length check. -/
def PublicKey.MarshalBinary (E : CodecEnv) (p : String) : Except Err (List Nat) :=
  match Base58CheckDecode E p with
  | .error e => .error e
  | .ok (pfx, b58decoded) =>
    if pfx = PrefixEd25519PublicKey then
      if b58decoded.length ≠ PubKeyLenEd25519 then
        .error (.other "wrong ed25519 public key length")
      else .ok (0 :: b58decoded)
    else if pfx = PrefixSecp256k1PublicKey then
      if b58decoded.length ≠ PubKeyLenSecp256k1 then
        .error (.other "wrong secp256k1 public key length")
      else .ok (1 :: b58decoded)
    else if pfx = PrefixP256PublicKey then
      if b58decoded.length ≠ PubKeyLenP256 then
        .error (.other "wrong p256 public key length")
      else .ok (2 :: b58decoded)
    else .error (.other "unexpected base58check prefix for public key")

/-- `PublicKey.UnmarshalBinary`: reads the curve tag, takes exactly the
curve's key length from the remainder and re-encodes. -/
def PublicKey.UnmarshalBinary (E : CodecEnv) (data : List Nat) : Except Err String :=
  match data with
  | [] => .error (.other "too few bytes to unmarshal public_key")
  | tag :: pubKey =>
    if tag = 0 then
      if pubKey.length < PubKeyLenEd25519 then
        .error (.other "too few bytes to unmarshal public_key")
      else Base58CheckEncode E PrefixEd25519PublicKey (pubKey.take PubKeyLenEd25519)
    else if tag = 1 then
      if pubKey.length < PubKeyLenSecp256k1 then
        .error (.other "too few bytes to unmarshal public_key")
      else Base58CheckEncode E PrefixSecp256k1PublicKey (pubKey.take PubKeyLenSecp256k1)
    else if tag = 2 then
      if pubKey.length < PubKeyLenP256 then
        .error (.other "too few bytes to unmarshal public_key")
      else Base58CheckEncode E PrefixP256PublicKey (pubKey.take PubKeyLenP256)
    else .error (.other "invalid public_key tag")

/-! ## Entrypoints, scripts and transaction parameters -/

def EntrypointTagDefault : Nat := 0
def EntrypointTagRoot : Nat := 1
def EntrypointTagDo : Nat := 2
def EntrypointTagSetDelegate : Nat := 3
def EntrypointTagRemoveDelegate : Nat := 4
def EntrypointTagNamed : Nat := 255

/-- `Entrypoint`: a tag byte and (for the named variant) a raw byte-string
name. -/
structure Entrypoint where
  tag : Nat
  name : List Nat
deriving DecidableEq, Repr

/-- `Entrypoint.MarshalBinary`: the tag byte, and for the named variant a
1-byte length (`uint8` cast, hence `% 256`) followed by the name bytes. -/
def Entrypoint.MarshalBinary (e : Entrypoint) : List Nat :=
  if e.tag = EntrypointTagNamed then e.tag :: e.name.length % 256 :: e.name
  else [e.tag]

/-- `Entrypoint.Name`: reserved tags resolve to their fixed names (as raw
ASCII bytes); a named entrypoint with an empty name is an error. -/
def Entrypoint.Name (e : Entrypoint) : Except Err (List Nat) :=
  if e.tag = EntrypointTagDefault then
    .ok [100, 101, 102, 97, 117, 108, 116]
  else if e.tag = EntrypointTagRoot then
    .ok [114, 111, 111, 116]
  else if e.tag = EntrypointTagDo then
    .ok [100, 111]
  else if e.tag = EntrypointTagSetDelegate then
    .ok [115, 101, 116, 95, 100, 101, 108, 101, 103, 97, 116, 101]
  else if e.tag = EntrypointTagRemoveDelegate then
    .ok [114, 101, 109, 111, 118, 101, 95, 100, 101, 108, 101, 103, 97, 116, 101]
  else if e.tag = EntrypointTagNamed then
    if e.name = [] then .error (.other "entrypoint is not named")
    else .ok e.name
  else .error (.other "unrecognized entrypoint tag")

/-- `Entrypoint.UnmarshalBinary`: any tag byte parses; tag 255 additionally
reads a 1-byte length and that many name bytes (a zero length is accepted). -/
def Entrypoint.UnmarshalBinary (data : List Nat) : Except Err Entrypoint :=
  match data with
  | [] => .error (.other "too few bytes to unmarshal Entrypoint")
  | t :: rest =>
    if t = EntrypointTagNamed then
      match rest with
      | [] => .error (.other "too few bytes to unmarshal Entrypoint name length")
      | nameLength :: rest2 =>
        if rest2.length < nameLength then
          .error (.other "too few bytes to unmarshal Entrypoint name")
        else .ok ⟨t, rest2.take nameLength⟩
    else .ok ⟨t, []⟩

/-- `ContractScript`. -/
structure ContractScript where
  Code : List Nat
  Storage : List Nat
deriving DecidableEq, Repr

/-- `ContractScript.MarshalBinary`: two uint30-bounded, 4-byte
length-prefixed blobs. -/
def ContractScript.MarshalBinary (c : ContractScript) : Except Err (List Nat) :=
  if c.Code.length > maxUint30 then
    .error (.other "script code cannot exceed uint30_max bytes")
  else if c.Storage.length > maxUint30 then
    .error (.other "script storage cannot exceed uint30_max bytes")
  else .ok (uint32BE c.Code.length ++ c.Code ++ uint32BE c.Storage.length ++ c.Storage)

/-- `ContractScript.UnmarshalBinary` via a `bytes.Reader`.  A `Read` call on
an exhausted reader returns `io.EOF` even for a zero-length destination
buffer (so a trailing zero-length blob at the exact end of input errors);
otherwise it reads `min` of the requested and remaining bytes, and a short
read fails the explicit `numRead` check. -/
def ContractScript.UnmarshalBinary (data : List Nat) : Except Err ContractScript :=
  if data.length < 4 then .error (.other "failed to read code length")
  else
    let codeLen := readUint32BE data
    let r1 := data.drop 4
    if r1.length = 0 then .error (.other "failed to read code")
    else if min codeLen r1.length ≠ codeLen then .error (.other "failed to read code")
    else
      let r2 := r1.drop codeLen
      if r2.length < 4 then .error (.other "failed to read storage length")
      else
        let storageLen := readUint32BE r2
        let r3 := r2.drop 4
        if r3.length = 0 then .error (.other "failed to read storage")
        else if min storageLen r3.length ≠ storageLen then
          .error (.other "failed to read storage")
        else .ok ⟨r1.take codeLen, r3.take storageLen⟩

/-- `TransactionParametersValueRawBytes.MarshalBinary`: 4-byte big-endian
length prefix then the raw bytes. -/
def TransactionParametersValueRawBytes.MarshalBinary (t : List Nat) : List Nat :=
  uint32BE t.length ++ t

/-- `TransactionParametersValueRawBytes.UnmarshalBinary`: demands the input
be exactly the 4-byte length prefix plus that many bytes. -/
def TransactionParametersValueRawBytes.UnmarshalBinary (data : List Nat) :
    Except Err (List Nat) :=
  if data.length < 4 then .error (.other "invalid transaction parameters value")
  else if data.length ≠ 4 + readUint32BE data then
    .error (.other "wrong transaction parameters value length")
  else .ok (data.drop 4)

/-- `TransactionParameters`: an entrypoint and an opaque value.  The only
`TransactionParametersValue` implementation in the sources is
`TransactionParametersValueRawBytes`, which the decoder always constructs,
so the value is its raw byte list. -/
structure TransactionParameters where
  Entrypoint : Entrypoint
  Value : List Nat
deriving DecidableEq, Repr

def TransactionParameters.MarshalBinary (t : TransactionParameters) : List Nat :=
  t.Entrypoint.MarshalBinary ++ TransactionParametersValueRawBytes.MarshalBinary t.Value

/-- `TransactionParameters.UnmarshalBinary`: decodes the entrypoint,
re-marshals it to locate the value bytes, then decodes the exact-length
value.  Advancing past the end of the buffer would be a recovered panic. -/
def TransactionParameters.UnmarshalBinary (data : List Nat) :
    Except Err TransactionParameters :=
  match Entrypoint.UnmarshalBinary data with
  | .error e => .error e
  | .ok e =>
    if data.length < e.MarshalBinary.length then .error .outOfBounds
    else
      match TransactionParametersValueRawBytes.UnmarshalBinary
          (data.drop e.MarshalBinary.length) with
      | .error e1 => .error e1
      | .ok v => .ok ⟨e, v⟩

/-! ## Operation contents -/

/-- `Revelation`. -/
structure Revelation where
  Source : String
  Fee : Int
  Counter : Int
  GasLimit : Int
  StorageLimit : Int
  PublicKey : String
deriving DecidableEq, Repr

/-- `Transaction`. -/
structure Transaction where
  Source : String
  Fee : Int
  Counter : Int
  GasLimit : Int
  StorageLimit : Int
  Amount : Int
  Destination : String
  Parameters : Option TransactionParameters
deriving DecidableEq, Repr

/-- `Origination`. -/
structure Origination where
  Source : String
  Fee : Int
  Counter : Int
  GasLimit : Int
  StorageLimit : Int
  Balance : Int
  Delegate : Option String
  Script : ContractScript
deriving DecidableEq, Repr

/-- `Delegation`. -/
structure Delegation where
  Source : String
  Fee : Int
  Counter : Int
  GasLimit : Int
  StorageLimit : Int
  Delegate : Option String
deriving DecidableEq, Repr

/-- `Endorsement`. -/
structure Endorsement where
  Level : Int
deriving DecidableEq, Repr

def Revelation.MarshalBinary (E : CodecEnv) (r : Revelation) :
    Except Err (List Nat) := do
  let sourceBytes ← ContractID.EncodePubKeyHash E r.Source
  let fee ← Zarith.Encode r.Fee
  let counter ← Zarith.Encode r.Counter
  let gasLimit ← Zarith.Encode r.GasLimit
  let storageLimit ← Zarith.Encode r.StorageLimit
  let pubKeyBytes ← PublicKey.MarshalBinary E r.PublicKey
  return ContentsTagRevelation ::
    sourceBytes ++ fee ++ counter ++ gasLimit ++ storageLimit ++ pubKeyBytes

def Revelation.UnmarshalBinary (E : CodecEnv) (data : List Nat) :
    Except Err Revelation :=
  match data with
  | [] => .error .outOfBounds
  | tag :: d0 =>
    if tag ≠ ContentsTagRevelation then .error (.other "invalid tag for revelation")
    else if d0.length < TaggedPubKeyHashLen then .error .outOfBounds
    else do
      let source ← ContractID.UnmarshalBinary E (d0.take TaggedPubKeyHashLen)
      let d1 := d0.drop TaggedPubKeyHashLen
      let (fee, n1) ← Zarith.ReadNext d1
      let d2 := d1.drop n1
      let (counter, n2) ← Zarith.ReadNext d2
      let d3 := d2.drop n2
      let (gasLimit, n3) ← Zarith.ReadNext d3
      let d4 := d3.drop n3
      let (storageLimit, n4) ← Zarith.ReadNext d4
      let d5 := d4.drop n4
      let publicKey ← PublicKey.UnmarshalBinary E d5
      return ⟨source, (fee : Int), (counter : Int), (gasLimit : Int),
        (storageLimit : Int), publicKey⟩

def Transaction.MarshalBinary (E : CodecEnv) (t : Transaction) :
    Except Err (List Nat) := do
  let sourceBytes ← ContractID.EncodePubKeyHash E t.Source
  let fee ← Zarith.Encode t.Fee
  let counter ← Zarith.Encode t.Counter
  let gasLimit ← Zarith.Encode t.GasLimit
  let storageLimit ← Zarith.Encode t.StorageLimit
  let amount ← Zarith.Encode t.Amount
  let destinationBytes ← ContractID.MarshalBinary E t.Destination
  let paramsBytes :=
    match t.Parameters with
    | none => [serializeBoolean false]
    | some p => serializeBoolean true :: p.MarshalBinary
  return ContentsTagTransaction ::
    sourceBytes ++ fee ++ counter ++ gasLimit ++ storageLimit ++ amount ++
    destinationBytes ++ paramsBytes

def Transaction.UnmarshalBinary (E : CodecEnv) (data : List Nat) :
    Except Err Transaction :=
  match data with
  | [] => .error .outOfBounds
  | tag :: d0 =>
    if tag ≠ ContentsTagTransaction then .error (.other "invalid tag for transaction")
    else if d0.length < TaggedPubKeyHashLen then .error .outOfBounds
    else do
      let source ← ContractID.UnmarshalBinary E (d0.take TaggedPubKeyHashLen)
      let d1 := d0.drop TaggedPubKeyHashLen
      let (fee, n1) ← Zarith.ReadNext d1
      let d2 := d1.drop n1
      let (counter, n2) ← Zarith.ReadNext d2
      let d3 := d2.drop n2
      let (gasLimit, n3) ← Zarith.ReadNext d3
      let d4 := d3.drop n3
      let (storageLimit, n4) ← Zarith.ReadNext d4
      let d5 := d4.drop n4
      let (amount, n5) ← Zarith.ReadNext d5
      let d6 := d5.drop n5
      if d6.length < ContractIDLen then .error .outOfBounds
      else do
        let destination ← ContractID.UnmarshalBinary E (d6.take ContractIDLen)
        match d6.drop ContractIDLen with
        | [] => .error .outOfBounds
        | paramsByte :: d7 => do
          let hasParameters ← deserializeBoolean paramsByte
          if hasParameters then do
            let params ← TransactionParameters.UnmarshalBinary d7
            return ⟨source, (fee : Int), (counter : Int), (gasLimit : Int),
              (storageLimit : Int), (amount : Int), destination, some params⟩
          else
            return ⟨source, (fee : Int), (counter : Int), (gasLimit : Int),
              (storageLimit : Int), (amount : Int), destination, none⟩

def Origination.MarshalBinary (E : CodecEnv) (o : Origination) :
    Except Err (List Nat) := do
  let sourceBytes ← ContractID.EncodePubKeyHash E o.Source
  let fee ← Zarith.Encode o.Fee
  let counter ← Zarith.Encode o.Counter
  let gasLimit ← Zarith.Encode o.GasLimit
  let storageLimit ← Zarith.Encode o.StorageLimit
  let balance ← Zarith.Encode o.Balance
  let delegateBytes ←
    match o.Delegate with
    | none => pure [serializeBoolean false]
    | some d => do
      let pkh ← ContractID.EncodePubKeyHash E d
      pure (serializeBoolean true :: pkh)
  let scriptBytes ← o.Script.MarshalBinary
  return ContentsTagOrigination ::
    sourceBytes ++ fee ++ counter ++ gasLimit ++ storageLimit ++ balance ++
    delegateBytes ++ scriptBytes

def Origination.UnmarshalBinary (E : CodecEnv) (data : List Nat) :
    Except Err Origination :=
  match data with
  | [] => .error .outOfBounds
  | tag :: d0 =>
    if tag ≠ ContentsTagOrigination then .error (.other "invalid tag for origination")
    else if d0.length < TaggedPubKeyHashLen then .error .outOfBounds
    else do
      let source ← ContractID.UnmarshalBinary E (d0.take TaggedPubKeyHashLen)
      let d1 := d0.drop TaggedPubKeyHashLen
      let (fee, n1) ← Zarith.ReadNext d1
      let d2 := d1.drop n1
      let (counter, n2) ← Zarith.ReadNext d2
      let d3 := d2.drop n2
      let (gasLimit, n3) ← Zarith.ReadNext d3
      let d4 := d3.drop n3
      let (storageLimit, n4) ← Zarith.ReadNext d4
      let d5 := d4.drop n4
      let (balance, n5) ← Zarith.ReadNext d5
      match d5.drop n5 with
      | [] => .error .outOfBounds
      | delegateByte :: d6 => do
        let hasDelegate ← deserializeBoolean delegateByte
        if hasDelegate then
          if d6.length < TaggedPubKeyHashLen then .error .outOfBounds
          else do
            let delegate ← ContractID.UnmarshalBinary E (d6.take TaggedPubKeyHashLen)
            let script ← ContractScript.UnmarshalBinary (d6.drop TaggedPubKeyHashLen)
            return ⟨source, (fee : Int), (counter : Int), (gasLimit : Int),
              (storageLimit : Int), (balance : Int), some delegate, script⟩
        else do
          let script ← ContractScript.UnmarshalBinary d6
          return ⟨source, (fee : Int), (counter : Int), (gasLimit : Int),
            (storageLimit : Int), (balance : Int), none, script⟩

def Delegation.MarshalBinary (E : CodecEnv) (d : Delegation) :
    Except Err (List Nat) := do
  let sourceBytes ← ContractID.EncodePubKeyHash E d.Source
  let fee ← Zarith.Encode d.Fee
  let counter ← Zarith.Encode d.Counter
  let gasLimit ← Zarith.Encode d.GasLimit
  let storageLimit ← Zarith.Encode d.StorageLimit
  let delegateBytes ←
    match d.Delegate with
    | none => pure [serializeBoolean false]
    | some dd => do
      let pkh ← ContractID.EncodePubKeyHash E dd
      pure (serializeBoolean true :: pkh)
  return ContentsTagDelegation ::
    sourceBytes ++ fee ++ counter ++ gasLimit ++ storageLimit ++ delegateBytes

def Delegation.UnmarshalBinary (E : CodecEnv) (data : List Nat) :
    Except Err Delegation :=
  match data with
  | [] => .error .outOfBounds
  | tag :: d0 =>
    if tag ≠ ContentsTagDelegation then .error (.other "invalid tag for delegation")
    else if d0.length < TaggedPubKeyHashLen then .error .outOfBounds
    else do
      let source ← ContractID.UnmarshalBinary E (d0.take TaggedPubKeyHashLen)
      let d1 := d0.drop TaggedPubKeyHashLen
      let (fee, n1) ← Zarith.ReadNext d1
      let d2 := d1.drop n1
      let (counter, n2) ← Zarith.ReadNext d2
      let d3 := d2.drop n2
      let (gasLimit, n3) ← Zarith.ReadNext d3
      let d4 := d3.drop n3
      let (storageLimit, n4) ← Zarith.ReadNext d4
      match d4.drop n4 with
      | [] => .error .outOfBounds
      | delegateByte :: d5 => do
        let hasDelegate ← deserializeBoolean delegateByte
        if hasDelegate then
          if d5.length < TaggedPubKeyHashLen then .error .outOfBounds
          else do
            let delegate ← ContractID.UnmarshalBinary E (d5.take TaggedPubKeyHashLen)
            return ⟨source, (fee : Int), (counter : Int), (gasLimit : Int),
              (storageLimit : Int), some delegate⟩
        else
          return ⟨source, (fee : Int), (counter : Int), (gasLimit : Int),
            (storageLimit : Int), none⟩

def Endorsement.MarshalBinary (e : Endorsement) : Except Err (List Nat) :=
  .ok (ContentsTagEndorsement :: int32BE e.Level)

def Endorsement.UnmarshalBinary (data : List Nat) : Except Err Endorsement :=
  match data with
  | [] => .error .outOfBounds
  | tag :: d0 =>
    if tag ≠ ContentsTagEndorsement then .error (.other "invalid tag for endorsement")
    else (readInt32 d0).map (fun level => ⟨level⟩)

/-! ## Operation and signed-operation envelopes -/

/-- The `OperationContents` interface as a closed sum of the five
implementing structs. -/
inductive OperationContents where
  | revelation (r : Revelation)
  | transaction (t : Transaction)
  | origination (o : Origination)
  | delegation (d : Delegation)
  | endorsement (e : Endorsement)
deriving DecidableEq, Repr

def OperationContents.MarshalBinary (E : CodecEnv) :
    OperationContents → Except Err (List Nat)
  | .revelation r => r.MarshalBinary E
  | .transaction t => t.MarshalBinary E
  | .origination o => o.MarshalBinary E
  | .delegation d => d.MarshalBinary E
  | .endorsement e => e.MarshalBinary

/-- The anonymous `interface{ GetSource() ContractID }` type assertion used
by `SignedOperation.UnmarshalBinary`: every content kind except
`Endorsement` exposes its source. -/
def OperationContents.GetSource? : OperationContents → Option String
  | .revelation r => some r.Source
  | .transaction t => some t.Source
  | .origination o => some o.Source
  | .delegation d => some d.Source
  | .endorsement _ => none

/-- `Operation`. -/
structure Operation where
  Branch : String
  Contents : List OperationContents
deriving DecidableEq, Repr

/-- Concatenated encodings of a contents list, in list order. -/
def contentsMarshalAll (E : CodecEnv) : List OperationContents → Except Err (List Nat)
  | [] => .ok []
  | c :: rest => do
    let cb ← c.MarshalBinary E
    let rb ← contentsMarshalAll E rest
    return cb ++ rb

/-- `Operation.MarshalBinary`: branch bytes, then each content's encoding in
list order; an empty contents list is an error. -/
def Operation.MarshalBinary (E : CodecEnv) (o : Operation) : Except Err (List Nat) :=
  match BranchID.MarshalBinary E o.Branch with
  | .error e => .error e
  | .ok branchIDBytes =>
    if o.Contents.isEmpty then
      .error (.other "expected non-zero list of contents in an operation")
    else (contentsMarshalAll E o.Contents).map (fun bs => branchIDBytes ++ bs)

/-- The decode loop of `Operation.UnmarshalBinary`: reads one tag byte,
dispatches to the matching content decoder (`Endorsement` has no case: its
tag is unexpected), re-marshals the decoded content to find how many bytes it
occupied, and advances.  Advancing past the end of the buffer is a recovered
panic.  The loop consumes at least one byte per iteration (every content
encoding starts with its tag byte), so fuel `data.length + 1` is never
exhausted. -/
def Operation.unmarshalContentsLoop (E : CodecEnv) :
    Nat → List Nat → Except Err (List OperationContents)
  | 0, _ => .error (.other "operation decode loop out of fuel")
  | fuel + 1, data =>
    match data with
    | [] => .ok []
    | tag :: _ =>
      let contentRes : Except Err OperationContents :=
        if tag = ContentsTagRevelation then
          (Revelation.UnmarshalBinary E data).map .revelation
        else if tag = ContentsTagTransaction then
          (Transaction.UnmarshalBinary E data).map .transaction
        else if tag = ContentsTagOrigination then
          (Origination.UnmarshalBinary E data).map .origination
        else if tag = ContentsTagDelegation then
          (Delegation.UnmarshalBinary E data).map .delegation
        else .error (.unexpectedContentTag tag)
      match contentRes with
      | .error e => .error e
      | .ok content =>
        match content.MarshalBinary E with
        | .error e => .error e
        | .ok marshaled =>
          if data.length < marshaled.length then .error .outOfBounds
          else
            (Operation.unmarshalContentsLoop E fuel (data.drop marshaled.length)).map
              (fun cs => content :: cs)

/-- `Operation.UnmarshalBinary`: the fixed 32-byte branch (slicing a shorter
buffer is a recovered panic), then the content loop over the remainder. -/
def Operation.UnmarshalBinary (E : CodecEnv) (data : List Nat) : Except Err Operation :=
  if data.length < BlockHashLen then .error .outOfBounds
  else do
    let branch ← BranchID.UnmarshalBinary E (data.take BlockHashLen)
    let contents ← Operation.unmarshalContentsLoop E (data.length + 1)
      (data.drop BlockHashLen)
    return ⟨branch, contents⟩

/-- `SignedOperation`. -/
structure SignedOperation where
  Operation : Operation
  Signature : String
deriving DecidableEq, Repr

/-- The signature-type inference scan of `SignedOperation.UnmarshalBinary`:
the first content exposing a source whose prefix is an implicit-account
prefix determines a curve-specific signature prefix; a contract-hash source
(and any other prefix, for which the Go `switch` has no case) keeps
scanning; exhausting the contents falls back to the generic prefix. -/
def SignedOperation.inferSignature (E : CodecEnv) (op : TezosProtocol.Operation)
    (signatureBytes : List Nat) :
    List OperationContents → Except Err SignedOperation
  | [] =>
    (Base58CheckEncode E PrefixGenericSignature signatureBytes).map
      (fun s => ⟨op, s⟩)
  | c :: rest =>
    match c.GetSource? with
    | none => SignedOperation.inferSignature E op signatureBytes rest
    | some sourceContract =>
      match Base58CheckDecode E sourceContract with
      | .error e => .error e
      | .ok (sourceContractType, _) =>
        if sourceContractType = PrefixEd25519PublicKeyHash then
          (Base58CheckEncode E PrefixEd25519Signature signatureBytes).map
            (fun s => ⟨op, s⟩)
        else if sourceContractType = PrefixP256PublicKeyHash then
          (Base58CheckEncode E PrefixP256Signature signatureBytes).map
            (fun s => ⟨op, s⟩)
        else if sourceContractType = PrefixSecp256k1PublicKeyHash then
          (Base58CheckEncode E PrefixSecp256k1Signature signatureBytes).map
            (fun s => ⟨op, s⟩)
        else SignedOperation.inferSignature E op signatureBytes rest

/-- `SignedOperation.UnmarshalBinary`: inputs shorter than the fixed 64-byte
signature are rejected; otherwise the operation is decoded from all but the
last 64 bytes and the trailing raw signature bytes are re-encoded with the
inferred prefix. -/
def SignedOperation.UnmarshalBinary (E : CodecEnv) (data : List Nat) :
    Except Err SignedOperation :=
  if data.length < OperationSignatureLen then
    .error (.other "signed operation too short")
  else
    match Operation.UnmarshalBinary E
        (data.take (data.length - OperationSignatureLen)) with
    | .error e => .error e
    | .ok op =>
      SignedOperation.inferSignature E op
        (data.drop (data.length - OperationSignatureLen)) op.Contents

/-- Modelled from the spec: the expected signature prefix of
`SignedOperation.decode` — "scans the decoded contents in order for the
first one exposing a `source` [with an implicit-account prefix] and maps
{Ed25519, P256, secp256k1 pubkey-hash prefixes} to the matching signature
prefix; if no content exposes a source, or the only sources found are
originated accounts, falls back to the generic signature prefix". -/
def specSignatureCurve (E : CodecEnv) (contents : List OperationContents) : Nat :=
  match (contents.filterMap OperationContents.GetSource?).filterMap
      (fun s => (Base58CheckDecode E s).toOption.map Prod.fst)
    |>.find? (fun q => q == PrefixEd25519PublicKeyHash
      || q == PrefixP256PublicKeyHash || q == PrefixSecp256k1PublicKeyHash) with
  | some q =>
    if q = PrefixEd25519PublicKeyHash then PrefixEd25519Signature
    else if q = PrefixP256PublicKeyHash then PrefixP256Signature
    else PrefixSecp256k1Signature
  | none => PrefixGenericSignature

/-! ## A concrete instantiation of the external codecs, for witnesses.
`toyB58Encode`/`toyB58Decode` form a bijection on byte lists (each byte
becomes one character), and `toySha256` returns 32 bytes, which is all the
embedded code relies on. -/

def toyB58Encode (xs : List Nat) : String := String.mk (xs.map Char.ofNat)

def toyB58Decode (s : String) : List Nat := s.data.map Char.toNat

def toySha256 (_xs : List Nat) : List Nat := List.replicate 32 7

def toyEnv : CodecEnv := ⟨toyB58Encode, toyB58Decode, toySha256⟩

theorem char_toNat_ofNat (n : Nat) (h : n < 256) : (Char.ofNat n).toNat = n := by
  have hv : n.isValidChar := Or.inl (by omega)
  unfold Char.ofNat
  rw [dif_pos hv]
  rfl

/-- The toy base58 codec round-trips on byte lists. -/
theorem toyB58_roundtrip (xs : List Nat) (h : ∀ a ∈ xs, a < 256) :
    toyB58Decode (toyB58Encode xs) = xs := by
  unfold toyB58Decode toyB58Encode
  simp only [List.map_map]
  have hcongr : ∀ a ∈ xs, (Char.toNat ∘ Char.ofNat) a = id a := by
    intro a ha
    simp [char_toNat_ofNat a (h a ha)]
  rw [List.map_congr_left hcongr, List.map_id]

/-! ## Claim theorems: zarith (C2, C7, C10) -/

/-- C2: decoding an unsigned zarith encoding recovers every natural number
(in particular all `n` up to `2 ^ 256`); decoding a signed encoding recovers
every integer, negative values included; and the unsigned encoder rejects
every negative input. -/
theorem claim_C2_zarith_roundtrip :
    (∀ n : Nat, (Zarith.Encode (n : Int)).bind Zarith.Decode = .ok n)
    ∧ (∀ v : Int, Zarith.DecodeSigned (Zarith.EncodeSigned v) = .ok v)
    ∧ (∀ v : Int, v < 0 → Zarith.Encode v = .error .negativeZarith) := by
  refine ⟨fun n => ?_, Zarith.DecodeSigned_EncodeSigned, fun v hv => ?_⟩
  · rw [Zarith.Encode, if_neg (by omega), Int.toNat_natCast]
    simpa using Zarith.Decode_EncodeNat n
  · rw [Zarith.Encode, if_pos hv]

/-- C2 witness: the round trips and the negative-input rejection at concrete
inputs. -/
theorem claim_C2_zarith_roundtrip_witness :
    (Zarith.Encode (1257 : Int)).bind Zarith.Decode = .ok 1257
    ∧ Zarith.DecodeSigned (Zarith.EncodeSigned (-1000000)) = .ok (-1000000)
    ∧ Zarith.Encode (-1 : Int) = .error .negativeZarith :=
  ⟨claim_C2_zarith_roundtrip.1 1257,
   claim_C2_zarith_roundtrip.2.1 (-1000000),
   claim_C2_zarith_roundtrip.2.2 (-1) (by decide)⟩

/-- C7: `ReadNext` on an unsigned encoding followed by arbitrary extra bytes
returns the encoded value together with the encoding's length, and it fails
with the unterminated-zarith error exactly when no byte of the input has its
high continuation bit clear. -/
theorem claim_C7_readnext :
    (∀ (n : Nat) (extra : List Nat),
      Zarith.Encode (n : Int) = .ok (Zarith.EncodeNat n)
      ∧ Zarith.ReadNext (Zarith.EncodeNat n ++ extra)
        = .ok (n, (Zarith.EncodeNat n).length))
    ∧ (∀ s : List Nat,
      Zarith.ReadNext s = .error .unterminatedZarith ↔ ∀ b ∈ s, b / 128 % 2 = 1) := by
  constructor
  · intro n extra
    refine ⟨?_, Zarith.ReadNext_EncodeNat n extra⟩
    rw [Zarith.Encode, if_neg (by omega), Int.toNat_natCast]
  · intro s
    rw [← Zarith.firstTerminalIdx_eq_none_iff]
    constructor
    · intro h
      unfold Zarith.ReadNext at h
      match hidx : Zarith.firstTerminalIdx s with
      | none => rfl
      | some i =>
        rw [hidx] at h
        have htk : s.take (i + 1) ≠ [] := by
          cases s with
          | nil => simp [Zarith.firstTerminalIdx] at hidx
          | cons a as => simp [List.take]
        simp only [Zarith.Decode, if_neg htk, Except.map] at h
        exact Except.noConfusion h
    · intro h
      unfold Zarith.ReadNext
      rw [h]

/-- C10: every non-empty byte array is accepted by both zarith decoders (the
continuation bit of the final byte is never validated), so inputs whose last
byte has the high bit set and non-minimal encodings such as `[0x80, 0x00]`
decode successfully; consequently `Decode` is not injective and
decode-then-encode does not round-trip. -/
theorem claim_C10_decoder_laxness :
    (∀ src : List Nat, src ≠ [] → ∃ n, Zarith.Decode src = .ok n)
    ∧ (∀ src : List Nat, src ≠ [] → ∃ v, Zarith.DecodeSigned src = .ok v)
    ∧ Zarith.Decode [255] = .ok 127
    ∧ Zarith.Decode [128, 0] = .ok 0
    ∧ Zarith.Decode [0] = .ok 0
    ∧ [128, 0] ≠ [0]
    ∧ Zarith.Encode (0 : Int) = .ok [0] := by
  refine ⟨fun src h => ⟨Zarith.segmentsValue src, ?_⟩, fun src h => ?_,
    by decide, by decide, by decide, by decide, by decide⟩
  · unfold Zarith.Decode
    rw [if_neg h]
  · cases src with
    | nil => exact absurd rfl h
    | cons b rest => exact ⟨_, rfl⟩

/-- C10 witness: both decoders accept a concrete non-empty input whose final
byte has the continuation bit set. -/
theorem claim_C10_decoder_laxness_witness :
    (∃ n, Zarith.Decode [255] = .ok n) ∧ ∃ v, Zarith.DecodeSigned [255] = .ok v :=
  ⟨claim_C10_decoder_laxness.1 [255] (by decide),
   claim_C10_decoder_laxness.2.1 [255] (by decide)⟩

/-! ## Claim theorems: decode safety (C5), entrypoints (C9) -/

/-- C5: decoding any of the five content kinds, or an `Operation`, from a
zero-length buffer yields the recoverable `outOfBounds` error value (the
recovered index/slice panic), never an unrecovered fault — in this
embedding, decoding is total and returns exactly `Err.outOfBounds`. -/
theorem claim_C5_empty_buffer_out_of_bounds (E : CodecEnv) :
    Revelation.UnmarshalBinary E [] = .error .outOfBounds
    ∧ Transaction.UnmarshalBinary E [] = .error .outOfBounds
    ∧ Origination.UnmarshalBinary E [] = .error .outOfBounds
    ∧ Delegation.UnmarshalBinary E [] = .error .outOfBounds
    ∧ Endorsement.UnmarshalBinary [] = .error .outOfBounds
    ∧ Operation.UnmarshalBinary E [] = .error .outOfBounds :=
  ⟨rfl, rfl, rfl, rfl, rfl, rfl⟩

/-- C9: the binary entrypoint decoder accepts `[255, 0]` (named tag with
declared name length zero), producing a named entrypoint with an empty name;
`Name` on that value errors, while `Name` succeeds on every reserved-tag
entrypoint and on named entrypoints with a non-empty name. -/
theorem claim_C9_entrypoint_empty_name :
    Entrypoint.UnmarshalBinary [255, 0] = .ok ⟨EntrypointTagNamed, []⟩
    ∧ Entrypoint.Name ⟨EntrypointTagNamed, []⟩ = .error (.other "entrypoint is not named")
    ∧ (∀ e : Entrypoint, e.tag < 5 → ∃ s, e.Name = .ok s)
    ∧ (∀ name : List Nat, name ≠ [] →
        Entrypoint.Name ⟨EntrypointTagNamed, name⟩ = .ok name) := by
  refine ⟨by decide, by decide, fun e h => ?_, fun name h => ?_⟩
  · have h5 : e.tag = 0 ∨ e.tag = 1 ∨ e.tag = 2 ∨ e.tag = 3 ∨ e.tag = 4 := by omega
    unfold Entrypoint.Name
    rcases h5 with h0 | h0 | h0 | h0 | h0 <;>
      rw [h0] <;> exact ⟨_, by rfl⟩
  · simp [Entrypoint.Name, EntrypointTagNamed, EntrypointTagDefault,
      EntrypointTagRoot, EntrypointTagDo, EntrypointTagSetDelegate,
      EntrypointTagRemoveDelegate, h]

/-- C9 witness: `Name` at a concrete reserved tag and a concrete non-empty
named entrypoint. -/
theorem claim_C9_entrypoint_empty_name_witness :
    (∃ s, Entrypoint.Name ⟨3, []⟩ = .ok s)
    ∧ Entrypoint.Name ⟨EntrypointTagNamed, [97]⟩ = .ok [97] :=
  ⟨claim_C9_entrypoint_empty_name.2.2.1 ⟨3, []⟩ (by decide),
   claim_C9_entrypoint_empty_name.2.2.2 [97] (by decide)⟩

/-! ## Claim theorems: Base58Check registry (C4) and round trip (C3) -/

/-- C4 counterexample: the process-wide registry holds 28 prefixes, not 26
as claimed. -/
theorem claim_C4_counterexample :
    AllBase58CheckPrefixes.length = 28 ∧ AllBase58CheckPrefixes.length ≠ 26 := by
  decide

/-- C4 (amended to 28 entries): running every registration in reference
order yields exactly the 28-entry table — each purpose registered with the
reference byte sequence and payload length, ids assigned in registration
order. -/
theorem claim_C4_registry :
    base58CheckPrefixInfos =
      [ ⟨0, 32, [1, 52]⟩, ⟨1, 32, [5, 116]⟩, ⟨2, 32, [133, 233]⟩,
        ⟨3, 32, [29, 159, 109]⟩, ⟨4, 32, [2, 170]⟩, ⟨5, 32, [79, 199]⟩,
        ⟨6, 20, [6, 161, 159]⟩, ⟨7, 20, [6, 161, 161]⟩, ⟨8, 20, [6, 161, 164]⟩,
        ⟨9, 16, [153, 103]⟩, ⟨10, 32, [13, 15, 58, 7]⟩,
        ⟨11, 32, [13, 15, 37, 217]⟩, ⟨12, 32, [17, 162, 224, 201]⟩,
        ⟨13, 32, [16, 81, 238, 189]⟩, ⟨14, 56, [7, 90, 60, 179, 41]⟩,
        ⟨15, 56, [9, 237, 241, 174, 150]⟩, ⟨16, 56, [9, 48, 57, 115, 171]⟩,
        ⟨17, 33, [3, 254, 226, 86]⟩, ⟨18, 33, [3, 178, 139, 127]⟩,
        ⟨19, 33, [38, 248, 136]⟩, ⟨20, 33, [5, 92, 0]⟩,
        ⟨21, 64, [43, 246, 78, 7]⟩, ⟨22, 64, [9, 245, 205, 134, 18]⟩,
        ⟨23, 64, [13, 115, 101, 19, 63]⟩, ⟨24, 64, [54, 240, 44, 52]⟩,
        ⟨25, 64, [4, 130, 43]⟩, ⟨26, 4, [87, 82, 0]⟩, ⟨27, 20, [2, 90, 121]⟩ ]
    ∧ AllBase58CheckPrefixes = List.range 28
    ∧ AllBase58CheckPrefixes.length = 28
    ∧ PayloadLength PrefixContractHash = 20
    ∧ PrefixBytes PrefixContractHash = [2, 90, 121]
    ∧ PayloadLength PrefixBlockHash = 32
    ∧ PrefixBytes PrefixBlockHash = [1, 52] := by
  refine ⟨by decide, by decide, by decide, by decide, by decide, by decide, by decide⟩

/-- C3: for every registered prefix and every payload of that prefix's
payload length, `Base58CheckDecode` applied to the `Base58CheckEncode`
output returns exactly the prefix and payload, assuming the external base58
alphabet codec round-trips on the encoded bytes and the checksum is 4 bytes
(SHA-256 output being 32 bytes). -/
theorem claim_C3_base58check_roundtrip (E : CodecEnv) (pfx : Nat)
    (hp : pfx ∈ AllBase58CheckPrefixes)
    (payload : List Nat) (hlen : payload.length = PayloadLength pfx)
    (hsha : (checksum E (PrefixBytes pfx ++ payload)).length = 4)
    (hrt : E.b58Decode (base58CheckString E pfx payload)
           = PrefixBytes pfx ++ payload ++ checksum E (PrefixBytes pfx ++ payload)) :
    ∃ s, Base58CheckEncode E pfx payload = .ok s
      ∧ Base58CheckDecode E s = .ok (pfx, payload) := by
  obtain ⟨h1, h2⟩ := Base58Check_roundtrip E pfx hp payload hlen hsha hrt
  exact ⟨base58CheckString E pfx payload, h1, h2⟩

/-- C3 witness: the round trip through the concrete toy codec environment at
the block-hash prefix with a 32-byte payload. -/
theorem claim_C3_base58check_roundtrip_witness :
    ∃ s, Base58CheckEncode toyEnv PrefixBlockHash (List.replicate 32 0) = .ok s
      ∧ Base58CheckDecode toyEnv s = .ok (PrefixBlockHash, List.replicate 32 0) :=
  claim_C3_base58check_roundtrip toyEnv PrefixBlockHash (by decide)
    (List.replicate 32 0) (by decide) (by decide) (by decide)

/-! ## PublicKey.CryptoPublicKey (C8) -/

/-- The `crypto.PublicKey` values the conversion can produce: a raw Ed25519
key, or the ECDSA key returned by the external secp256k1 point parser. -/
inductive CryptoPublicKey where
  | ed25519 (key : List Nat)
  | ecdsaSecp256k1 (key : List Nat)
deriving DecidableEq, Repr

/-- `PublicKey.CryptoPublicKey`: Ed25519 keys convert directly, secp256k1
keys go through the external compressed-point parser (`btcec.ParsePubKey`,
passed in as `parsePubKey`), and P256 keys are rejected by design
(compressed-point decompression unsupported). -/
def PublicKey.CryptoPublicKey (E : CodecEnv)
    (parsePubKey : List Nat → Except Err (List Nat)) (p : String) :
    Except Err CryptoPublicKey :=
  match Base58CheckDecode E p with
  | .error e => .error e
  | .ok (pfx, b58decoded) =>
    if pfx = PrefixEd25519PublicKey then .ok (.ed25519 b58decoded)
    else if pfx = PrefixSecp256k1PublicKey then
      (parsePubKey b58decoded).map .ecdsaSecp256k1
    else if pfx = PrefixP256PublicKey then
      .error (.other "unable to deserialize compressed P256 keys")
    else .error (.other "unexpected base58check prefix for public key")

/-- C8: the to-native conversion succeeds on every well-formed Ed25519
public key and on every well-formed secp256k1 public key (one whose
compressed point the external parser accepts), and errors on every P256
public key. -/
theorem claim_C8_crypto_public_key (E : CodecEnv)
    (parsePubKey : List Nat → Except Err (List Nat)) :
    (∀ p payload, Base58CheckDecode E p = .ok (PrefixEd25519PublicKey, payload) →
      PublicKey.CryptoPublicKey E parsePubKey p = .ok (.ed25519 payload))
    ∧ (∀ p payload k, Base58CheckDecode E p = .ok (PrefixSecp256k1PublicKey, payload) →
      parsePubKey payload = .ok k →
      PublicKey.CryptoPublicKey E parsePubKey p = .ok (.ecdsaSecp256k1 k))
    ∧ (∀ p payload, Base58CheckDecode E p = .ok (PrefixP256PublicKey, payload) →
      PublicKey.CryptoPublicKey E parsePubKey p
        = .error (.other "unable to deserialize compressed P256 keys")) := by
  refine ⟨fun p payload h => ?_, fun p payload k h hk => ?_, fun p payload h => ?_⟩
  · unfold PublicKey.CryptoPublicKey
    rw [h]
    simp
  · unfold PublicKey.CryptoPublicKey
    rw [h]
    simp [PrefixSecp256k1PublicKey, PrefixEd25519PublicKey, hk, Except.map]
  · unfold PublicKey.CryptoPublicKey
    rw [h]
    simp [PrefixP256PublicKey, PrefixEd25519PublicKey, PrefixSecp256k1PublicKey]

/-- The toy secp256k1 point parser used by the C8 witness. -/
def toyParsePubKey : List Nat → Except Err (List Nat) := fun bs => .ok bs

/-- C8 witness: the three behaviours at concrete canonical key strings in
the toy codec environment. -/
theorem claim_C8_crypto_public_key_witness :
    PublicKey.CryptoPublicKey toyEnv toyParsePubKey
      (base58CheckString toyEnv PrefixEd25519PublicKey (List.replicate 32 5))
      = .ok (.ed25519 (List.replicate 32 5))
    ∧ PublicKey.CryptoPublicKey toyEnv toyParsePubKey
      (base58CheckString toyEnv PrefixSecp256k1PublicKey (List.replicate 33 6))
      = .ok (.ecdsaSecp256k1 (List.replicate 33 6))
    ∧ PublicKey.CryptoPublicKey toyEnv toyParsePubKey
      (base58CheckString toyEnv PrefixP256PublicKey (List.replicate 33 7))
      = .error (.other "unable to deserialize compressed P256 keys") :=
  ⟨(claim_C8_crypto_public_key toyEnv toyParsePubKey).1 _ _ (by decide),
   (claim_C8_crypto_public_key toyEnv toyParsePubKey).2.1 _ _ _ (by decide) rfl,
   (claim_C8_crypto_public_key toyEnv toyParsePubKey).2.2 _ (List.replicate 33 7)
     (by decide)⟩

/-! ## Canonical-form predicates and field round-trip lemmas -/

/-- Why the non-empty-storage condition of `operationWF` is needed: an
origination whose script has empty storage marshals (the encoder only
length-bounds the byte fields) but, placed at the end of the buffer, fails
to unmarshal — the zero-length storage read on the exhausted reader reports
end of input. -/
theorem origination_empty_storage_final_fails :
    (let op : Operation :=
      ⟨base58CheckString toyEnv PrefixBlockHash (List.replicate 32 0),
        [.origination ⟨base58CheckString toyEnv PrefixEd25519PublicKeyHash
          (List.replicate 20 0), 0, 0, 0, 0, 0, none, ⟨[], []⟩⟩]⟩
     Operation.MarshalBinary toyEnv op
        = .ok (List.replicate 32 0 ++ 109 :: 0 :: List.replicate 20 0
            ++ [0, 0, 0, 0, 0, 0] ++ [0, 0, 0, 0] ++ [0, 0, 0, 0])
      ∧ Operation.UnmarshalBinary toyEnv
          (List.replicate 32 0 ++ 109 :: 0 :: List.replicate 20 0
            ++ [0, 0, 0, 0, 0, 0] ++ [0, 0, 0, 0] ++ [0, 0, 0, 0])
          = .error (.other "failed to read storage")) := by
  decide

/-- The source exposed by a content (if any) decodes under the registry. -/
def sourceDecodes (E : CodecEnv) (c : OperationContents) : Bool :=
  match c.GetSource? with
  | none => true
  | some s => (Base58CheckDecode E s).toOption.isSome

/-- Every source exposed by the contents decodes under the registry. -/
def sourcesDecodable (E : CodecEnv) (cs : List OperationContents) : Bool :=
  cs.all (sourceDecodes E)

/-- The Go scan (`SignedOperation.inferSignature`) agrees with the spec's
description of the prefix choice whenever every exposed source decodes: it
Base58Check-encodes the signature bytes with the curve-determined prefix. -/
theorem inferSignature_eq_spec (E : CodecEnv) (op : TezosProtocol.Operation)
    (sig : List Nat) (cs : List OperationContents)
    (h : sourcesDecodable E cs = true) :
    SignedOperation.inferSignature E op sig cs
      = (Base58CheckEncode E (specSignatureCurve E cs) sig).map
          (fun s => ⟨op, s⟩) := by
  induction cs with
  | nil => rfl
  | cons c rest ih =>
    simp only [sourcesDecodable, List.all_cons, Bool.and_eq_true] at h
    have ih' := ih (by simpa [sourcesDecodable] using h.2)
    have hc := h.1
    cases hs : c.GetSource? with
    | none =>
      have hl : SignedOperation.inferSignature E op sig (c :: rest)
          = SignedOperation.inferSignature E op sig rest := by
        simp only [SignedOperation.inferSignature, hs]
      have hr : specSignatureCurve E (c :: rest) = specSignatureCurve E rest := by
        simp only [specSignatureCurve, List.filterMap_cons, hs]
      rw [hl, hr]
      exact ih'
    | some s =>
      simp only [sourceDecodes, hs] at hc
      cases hdec : Base58CheckDecode E s with
      | error e => simp [hdec, Except.toOption] at hc
      | ok pr =>
        obtain ⟨pfx, pl⟩ := pr
        by_cases h1 : pfx = PrefixEd25519PublicKeyHash
        · subst h1
          simp [SignedOperation.inferSignature, hs, hdec, specSignatureCurve,
            List.filterMap_cons, Except.toOption, List.find?_cons]
        · by_cases h2 : pfx = PrefixP256PublicKeyHash
          · subst h2
            have hne1 : ¬ (PrefixP256PublicKeyHash = PrefixEd25519PublicKeyHash) := by
              decide
            simp [SignedOperation.inferSignature, hs, hdec, specSignatureCurve,
              List.filterMap_cons, Except.toOption, List.find?_cons, hne1]
          · by_cases h3 : pfx = PrefixSecp256k1PublicKeyHash
            · subst h3
              have hne1 : ¬ (PrefixSecp256k1PublicKeyHash = PrefixEd25519PublicKeyHash) := by
                decide
              have hne2 : ¬ (PrefixSecp256k1PublicKeyHash = PrefixP256PublicKeyHash) := by
                decide
              simp [SignedOperation.inferSignature, hs, hdec, specSignatureCurve,
                List.filterMap_cons, Except.toOption, List.find?_cons, hne1, hne2]
            · have hl : SignedOperation.inferSignature E op sig (c :: rest)
                  = SignedOperation.inferSignature E op sig rest := by
                simp [SignedOperation.inferSignature, hs, hdec, h1, h2, h3]
              have hr : specSignatureCurve E (c :: rest)
                  = specSignatureCurve E rest := by
                simp [specSignatureCurve, List.filterMap_cons, hs, hdec,
                  Except.toOption, List.find?_cons, h1, h2, h3]
              rw [hl, hr]
              exact ih'

/-- C6: `SignedOperation.UnmarshalBinary` rejects every input shorter than
the fixed 64-byte signature; on longer inputs it decodes the operation from
all but the last 64 bytes and re-encodes the trailing 64 raw bytes with the
signature prefix determined by the first decoded content exposing a source
with an implicit-account prefix (Ed25519/P256/secp256k1 pubkey-hash mapped to
the matching curve signature prefix), falling back to the generic prefix when
no source, or only originated-account or otherwise unmatched sources, are
exposed; every candidate signature prefix carries a 64-byte payload length. -/
theorem claim_C6_signature_inference (E : CodecEnv) :
    (∀ data : List Nat, data.length < OperationSignatureLen →
      SignedOperation.UnmarshalBinary E data
        = .error (.other "signed operation too short"))
    ∧ (∀ (data : List Nat) (op : TezosProtocol.Operation),
        OperationSignatureLen ≤ data.length →
        Operation.UnmarshalBinary E
            (data.take (data.length - OperationSignatureLen)) = .ok op →
        sourcesDecodable E op.Contents = true →
        SignedOperation.UnmarshalBinary E data
          = (Base58CheckEncode E (specSignatureCurve E op.Contents)
              (data.drop (data.length - OperationSignatureLen))).map
              (fun s => ⟨op, s⟩))
    ∧ (∀ cs : List OperationContents,
        PayloadLength (specSignatureCurve E cs) = OperationSignatureLen) := by
  refine ⟨fun data hlt => ?_, fun data op hge hop hsd => ?_, fun cs => ?_⟩
  · simp only [SignedOperation.UnmarshalBinary, if_pos hlt]
  · have hnlt : ¬ (data.length < OperationSignatureLen) := by omega
    simp only [SignedOperation.UnmarshalBinary, if_neg hnlt, hop]
    exact inferSignature_eq_spec E op _ op.Contents hsd
  · unfold specSignatureCurve
    split
    · split
      · decide
      · split
        · decide
        · decide
    · decide

/-- A concrete well-formed single-delegation operation for the signed
decoding witness. -/
def c6WitnessOp : Operation :=
  ⟨base58CheckString toyEnv PrefixBlockHash (List.replicate 32 0),
    [.delegation ⟨base58CheckString toyEnv PrefixEd25519PublicKeyHash
      (List.replicate 20 0), 0, 0, 0, 0, none⟩]⟩

/-- Its marshalled bytes followed by 64 raw signature bytes. -/
def c6WitnessData : List Nat :=
  List.replicate 32 0 ++ (110 :: 0 :: (List.replicate 20 0 ++ [0, 0, 0, 0, 0]))
    ++ List.replicate 64 1

/-- C6 witness: the short-input rejection at a 10-byte input, and the
64-byte-split decode-and-reencode at a concrete 123-byte signed delegation. -/
theorem claim_C6_signature_inference_witness :
    ((List.replicate 10 0 : List Nat).length < OperationSignatureLen
      ∧ SignedOperation.UnmarshalBinary toyEnv (List.replicate 10 0)
          = .error (.other "signed operation too short"))
    ∧ (OperationSignatureLen ≤ c6WitnessData.length
      ∧ Operation.UnmarshalBinary toyEnv
          (c6WitnessData.take (c6WitnessData.length - OperationSignatureLen))
          = .ok c6WitnessOp
      ∧ sourcesDecodable toyEnv c6WitnessOp.Contents = true
      ∧ SignedOperation.UnmarshalBinary toyEnv c6WitnessData
          = (Base58CheckEncode toyEnv
              (specSignatureCurve toyEnv c6WitnessOp.Contents)
              (c6WitnessData.drop
                (c6WitnessData.length - OperationSignatureLen))).map
              (fun s => ⟨c6WitnessOp, s⟩)) :=
  ⟨⟨by decide, (claim_C6_signature_inference toyEnv).1 _ (by decide)⟩,
   by decide, by decide, by decide,
   (claim_C6_signature_inference toyEnv).2.1 c6WitnessData c6WitnessOp
     (by decide) (by decide) (by decide)⟩

end TezosProtocol
